import Mathlib

/-!
Verification of the client-side PDF pagination and export pipeline of the
Sondagem-IA repository (src/App.tsx and
src/components/ConsolidatedStudentView.tsx).

Conventions of the shallow embedding:
* JavaScript numbers are modelled as rationals.  All quantities the claims
  are about (element heights, margins, cursor positions, page heights) are
  exact small decimals in the executions of interest, so rational arithmetic
  coincides with the source's floating-point arithmetic there.
* Strings are modelled as lists: as lists of characters where only
  equality of characters matters, and as lists of Unicode code points
  (naturals) where character arithmetic (ASCII lowercasing) matters.
* The DOM side effects tracked by the error-handling claims (the busy flag
  and the attached staging container) are modelled as explicit state, and
  the stages of the pipeline that can throw are modelled by a record of
  booleans saying which stage throws; the handlers become pure functions
  from that record and a pre-state to the post-state.
-/

namespace SondagemIA

/-! ## Page-break insertion ("Tetris" pass), src/App.tsx lines 254-309 -/

/-- Constant A4_HEIGHT_PX (src/App.tsx line 257). -/
def A4_HEIGHT_PX : ℚ := 1123

/-- Constant PADDING_BOTTOM (src/App.tsx line 259). -/
def PADDING_BOTTOM : ℚ := 60

/-- Constant PAGE_CONTENT_HEIGHT = A4_HEIGHT_PX - PADDING_BOTTOM
(src/App.tsx line 262). -/
def PAGE_CONTENT_HEIGHT : ℚ := A4_HEIGHT_PX - PADDING_BOTTOM

/-- One measured content block of the staged clone: rendered height
(offsetHeight) and the computed top and bottom margins, as read in
src/App.tsx lines 276-279. -/
structure Block where
  height : ℚ
  marginTop : ℚ
  marginBottom : ℚ
deriving DecidableEq, Repr

/-- totalItemHeight = elHeight + marginTop + marginBottom
(src/App.tsx line 281). -/
def totalItemHeight (b : Block) : ℚ :=
  b.height + b.marginTop + b.marginBottom

/-- The placement the pass assigns to one block: the top margin written back
to the element (src/App.tsx line 301; unchanged when the block is not
pushed) and the vertical band the block's own margins-plus-content occupy
after the mutation.  For a pushed block the band starts after the inserted
blank push space, matching the cursor updates of lines 304 and 307. -/
structure Placed where
  newMarginTop : ℚ
  startY : ℚ
  endY : ℚ
deriving DecidableEq, Repr

/-- One iteration of the items.forEach loop (src/App.tsx lines 274-309),
given the usable page height u and the cursor y; returns the placement of
the block and the new cursor. -/
def paginateStep (u y : ℚ) (b : Block) : Placed × ℚ :=
  let t := totalItemHeight b
  let endPosition := y + t
  let currentPageIndex : ℤ := ⌊y / u⌋
  let endPageIndex : ℤ := ⌊endPosition / u⌋
  if currentPageIndex ≠ endPageIndex then
    let remainingSpaceOnPage : ℚ := ((currentPageIndex : ℚ) + 1) * u - y
    let pushDownAmount : ℚ := remainingSpaceOnPage + 40
    (⟨b.marginTop + pushDownAmount, y + pushDownAmount, y + pushDownAmount + t⟩,
      y + pushDownAmount + t)
  else
    (⟨b.marginTop, y, y + t⟩, y + t)

/-- The whole page-break insertion pass over the document-ordered block
list, starting from cursor y (0 plus the header height in the source,
src/App.tsx lines 265-271).  Returns the placements in order and the final
cursor value. -/
def paginate (u : ℚ) : ℚ → List Block → List (Block × Placed) × ℚ
  | y, [] => ([], y)
  | y, b :: bs =>
    let r := paginateStep u y b
    let rest := paginate u r.2 bs
    ((b, r.1) :: rest.1, rest.2)

/-- Evaluation helper: establish the floor of a concrete rational from two
numeric inequalities. -/
theorem floor_eval {q : ℚ} {z : ℤ} (h1 : (z : ℚ) ≤ q) (h2 : q < z + 1) :
    ⌊q⌋ = z := by
  rw [Int.floor_eq_iff]
  exact ⟨h1, h2⟩

/-- Evaluation helper: establish the ceiling of a concrete rational from two
numeric inequalities. -/
theorem ceil_eval {q : ℚ} {z : ℤ} (h1 : (z : ℚ) - 1 < q) (h2 : q ≤ z) :
    ⌈q⌉ = z := by
  rw [Int.ceil_eq_iff]
  exact ⟨h1, h2⟩

/-! Concrete floor values at the source's usable page height 1063, used to
evaluate the pagination pass on concrete block lists. -/

theorem floor1063_0 : ⌊(0 : ℚ) / 1063⌋ = 0 := floor_eval (by norm_num) (by norm_num)

theorem floor1063_300 : ⌊(300 : ℚ) / 1063⌋ = 0 := floor_eval (by norm_num) (by norm_num)

theorem floor1063_1000 : ⌊(1000 : ℚ) / 1063⌋ = 0 := floor_eval (by norm_num) (by norm_num)

theorem floor1063_1103 : ⌊(1103 : ℚ) / 1063⌋ = 1 := floor_eval (by norm_num) (by norm_num)

theorem floor1063_1200 : ⌊(1200 : ℚ) / 1063⌋ = 1 := floor_eval (by norm_num) (by norm_num)

theorem floor1063_2003 : ⌊(2003 : ℚ) / 1063⌋ = 1 := floor_eval (by norm_num) (by norm_num)

theorem floor1063_2040 : ⌊(2040 : ℚ) / 1063⌋ = 1 := floor_eval (by norm_num) (by norm_num)

theorem floor1063_2143 : ⌊(2143 : ℚ) / 1063⌋ = 2 := floor_eval (by norm_num) (by norm_num)

theorem floor1063_2203 : ⌊(2203 : ℚ) / 1063⌋ = 2 := floor_eval (by norm_num) (by norm_num)

/-- Claim C3: a straddling block (start page floor differs from end page
floor) gets its top margin set to marginTop + remaining + 40 with
remaining = (startPage + 1) * usableHeight - currentY, and the cursor
advances by (remaining + 40) + blockTotalHeight; a non-straddling block
causes no mutation and advances the cursor by exactly blockTotalHeight. -/
theorem paginateStep_branch_spec (u y : ℚ) (b : Block) :
    (⌊y / u⌋ ≠ ⌊(y + totalItemHeight b) / u⌋ →
      (paginateStep u y b).1.newMarginTop
          = b.marginTop + (((⌊y / u⌋ : ℚ) + 1) * u - y + 40) ∧
      (paginateStep u y b).2
          = y + ((((⌊y / u⌋ : ℚ) + 1) * u - y + 40) + totalItemHeight b)) ∧
    (⌊y / u⌋ = ⌊(y + totalItemHeight b) / u⌋ →
      (paginateStep u y b).1.newMarginTop = b.marginTop ∧
      (paginateStep u y b).2 = y + totalItemHeight b) := by
  constructor
  · intro h
    simp only [paginateStep]
    rw [if_pos h]
    exact ⟨rfl, by ring⟩
  · intro h
    simp only [paginateStep]
    rw [if_neg (fun hc => hc h)]
    exact ⟨rfl, rfl⟩

/-- Witness for paginateStep_branch_spec: the push branch at cursor 300
with a 900-tall block (margin set to 803, cursor to 2003), and the
no-push branch at cursor 0 with a 300-tall block. -/
theorem paginateStep_branch_spec_witness :
    ((paginateStep 1063 300 ⟨900, 0, 0⟩).1.newMarginTop = 803 ∧
      (paginateStep 1063 300 ⟨900, 0, 0⟩).2 = 2003) ∧
    ((paginateStep 1063 0 ⟨300, 0, 0⟩).1.newMarginTop = 0 ∧
      (paginateStep 1063 0 ⟨300, 0, 0⟩).2 = 300) := by
  have hne : ⌊(300 : ℚ) / 1063⌋ ≠ ⌊((300 : ℚ) + totalItemHeight ⟨900, 0, 0⟩) / 1063⌋ := by
    norm_num [totalItemHeight, floor1063_300, floor1063_1200]
  have heq : ⌊(0 : ℚ) / 1063⌋ = ⌊((0 : ℚ) + totalItemHeight ⟨300, 0, 0⟩) / 1063⌋ := by
    norm_num [totalItemHeight, floor1063_0, floor1063_300]
  obtain ⟨h1, h2⟩ := (paginateStep_branch_spec 1063 300 ⟨900, 0, 0⟩).1 hne
  obtain ⟨h3, h4⟩ := (paginateStep_branch_spec 1063 0 ⟨300, 0, 0⟩).2 heq
  refine ⟨⟨?_, ?_⟩, ?_, ?_⟩
  · rw [h1, floor1063_300]; norm_num
  · rw [h2, floor1063_300]; norm_num [totalItemHeight]
  · rw [h3]
  · rw [h4]; norm_num [totalItemHeight]

/-- Claim C6 (counterexample): in the spec's worked scenario (usable height
1063, blocks of heights 300, 900, 200 with zero margins, initial cursor 0)
the third block does not stay at 2003-2203 with no push: its pre-push end
2203 lies past the second page boundary 2126, so the pass pushes it by
163, mutating its top margin, and the final cursor is 2366, not 2203. -/
theorem paginate_scenario_counterexample :
    (paginate 1063 0 [⟨300, 0, 0⟩, ⟨900, 0, 0⟩, ⟨200, 0, 0⟩]).2 = 2366 ∧
    ((2366 : ℚ) = 2203 → False) ∧
    ((paginate 1063 0 [⟨300, 0, 0⟩, ⟨900, 0, 0⟩, ⟨200, 0, 0⟩]).1.map
        (fun p => p.2.newMarginTop)) = [0, 803, 163] ∧
    ((163 : ℚ) = 0 → False) := by
  refine ⟨?_, by norm_num, ?_, by norm_num⟩ <;>
    norm_num [paginate, paginateStep, totalItemHeight, floor1063_0,
      floor1063_300, floor1063_1200, floor1063_2003, floor1063_2203]

/-- Claim C6 (amended): with usable height 1063, initial cursor 0 and
blocks of heights 300, 900, 200 with zero margins, block 2 is pushed by
(1063 - 300) + 40 = 803 so its content spans 1103 to 2003; block 3, which
would span 2003 to 2203 and so would cross the page boundary at 2126, is
also pushed, by (2126 - 2003) + 40 = 163, so it spans 2166 to 2366; the
pass terminates with final cursor 2366. -/
theorem paginate_scenario_amended :
    paginate 1063 0 [⟨300, 0, 0⟩, ⟨900, 0, 0⟩, ⟨200, 0, 0⟩] =
      ([(⟨300, 0, 0⟩, ⟨0, 0, 300⟩),
        (⟨900, 0, 0⟩, ⟨803, 1103, 2003⟩),
        (⟨200, 0, 0⟩, ⟨163, 2166, 2366⟩)], 2366) := by
  norm_num [paginate, paginateStep, totalItemHeight, floor1063_0,
    floor1063_300, floor1063_1200, floor1063_2003, floor1063_2203]

/-- Helper: the floor of ((k * u + r) / u) is k when 0 ≤ r < u. -/
theorem floor_mul_add_div (k : ℤ) (u r : ℚ) (hu : 0 < u) (h0 : 0 ≤ r)
    (h1 : r < u) : ⌊((k : ℚ) * u + r) / u⌋ = k := by
  have hne : u ≠ 0 := ne_of_gt hu
  have hdiv : ((k : ℚ) * u + r) / u = (k : ℚ) + r / u := by
    field_simp
  rw [hdiv, Int.floor_int_add]
  have : ⌊r / u⌋ = 0 := by
    rw [Int.floor_eq_zero_iff]
    exact ⟨div_nonneg h0 hu.le, (div_lt_one hu).mpr h1⟩
  omega

/-- Claim C1 (counterexample): a block of total height 1040 ≤ 1063 (one
usable page height, zero margins) still straddles a page boundary after
the pass: following a 1000-tall block it is pushed to start at 1103, ends
at 2143, and floor(1103 / 1063) = 1 while floor(2143 / 1063) = 2. -/
theorem paginate_straddle_counterexample :
    totalItemHeight ⟨1040, 0, 0⟩ ≤ 1063 ∧
    (paginate 1063 0 [⟨1000, 0, 0⟩, ⟨1040, 0, 0⟩]).1.map
        (fun p => (p.2.startY, p.2.endY)) = [((0 : ℚ), (1000 : ℚ)), (1103, 2143)] ∧
    (⌊(1103 : ℚ) / 1063⌋ = ⌊(2143 : ℚ) / 1063⌋ → False) := by
  refine ⟨by norm_num [totalItemHeight], ?_, ?_⟩
  · norm_num [paginate, paginateStep, totalItemHeight, floor1063_0,
      floor1063_1000, floor1063_2040]
  · rw [floor1063_1103, floor1063_2143]
    norm_num

/-- Claim C1 (amended): after the page-break pass (usable height u > 40,
blocks with non-negative height and margins), every block whose total
height is strictly below u - 40 lies entirely within one page:
floor(startY / u) = floor(endY / u) for its post-mutation start and end
offsets.  Blocks of total height in [u - 40, u] can still straddle,
because a pushed block starts 40 below the page boundary. -/
theorem paginate_no_straddle (u : ℚ) (hu : 40 < u) :
    ∀ (y0 : ℚ) (bs : List Block),
      (∀ b ∈ bs, 0 ≤ b.height ∧ 0 ≤ b.marginTop ∧ 0 ≤ b.marginBottom) →
      ∀ p ∈ (paginate u y0 bs).1,
        totalItemHeight p.1 + 40 < u →
        ⌊p.2.startY / u⌋ = ⌊p.2.endY / u⌋ := by
  have hu0 : (0 : ℚ) < u := by linarith
  intro y0 bs
  induction bs generalizing y0 with
  | nil => intro _ p hp; simp [paginate] at hp
  | cons b bs ih =>
    intro hb p hp ht
    simp only [paginate, List.mem_cons] at hp
    rcases hp with hp | hp
    · subst hp
      have hbnn := hb b (List.mem_cons_self b bs)
      have htnn : 0 ≤ totalItemHeight b := by
        have := hbnn.1; have := hbnn.2.1; have := hbnn.2.2
        unfold totalItemHeight; linarith
      dsimp only
      by_cases hc : ⌊y0 / u⌋ ≠ ⌊(y0 + totalItemHeight b) / u⌋
      · simp only [paginateStep]
        rw [if_pos hc]
        dsimp only at ht ⊢
        rw [show y0 + (((⌊y0 / u⌋ : ℚ) + 1) * u - y0 + 40)
            = ((⌊y0 / u⌋ + 1 : ℤ) : ℚ) * u + 40 by push_cast; ring]
        rw [show ((⌊y0 / u⌋ + 1 : ℤ) : ℚ) * u + 40 + totalItemHeight b
            = ((⌊y0 / u⌋ + 1 : ℤ) : ℚ) * u + (40 + totalItemHeight b) by ring]
        rw [floor_mul_add_div _ _ _ hu0 (by norm_num) (by linarith),
          floor_mul_add_div _ _ _ hu0 (by linarith) (by linarith)]
      · push_neg at hc
        simp only [paginateStep]
        rw [if_neg (fun hcc => hcc hc)]
        exact hc
    · exact ih (paginateStep u y0 b).2 (fun b' hb' => hb b' (List.mem_cons_of_mem b hb')) p hp ht

/-- Witness for paginate_no_straddle: in the worked scenario the pushed
900-tall block (total height 940, 940 + 40 < 1063) ends up with equal
start and end page indices. -/
theorem paginate_no_straddle_witness :
    ⌊(1103 : ℚ) / 1063⌋ = ⌊(2003 : ℚ) / 1063⌋ := by
  have e : (paginate 1063 0 [⟨300, 0, 0⟩, ⟨900, 0, 0⟩]).1 =
      [(⟨300, 0, 0⟩, ⟨0, 0, 300⟩), (⟨900, 0, 0⟩, ⟨803, 1103, 2003⟩)] := by
    norm_num [paginate, paginateStep, totalItemHeight, floor1063_0,
      floor1063_300, floor1063_1200]
  have h := paginate_no_straddle 1063 (by norm_num) 0 [⟨300, 0, 0⟩, ⟨900, 0, 0⟩]
    (by intro b hb; fin_cases hb <;> norm_num)
    (⟨900, 0, 0⟩, ⟨803, 1103, 2003⟩)
    (by rw [e]; simp)
    (by norm_num [totalItemHeight])
  exact h

/-- Claim C7: the cursor never decreases; each processed block advances it
by at least that block's own rendered height (given a positive usable
height and non-negative heights and margins), and over a whole run the
final cursor is at least the initial cursor plus the sum of all block
heights. -/
theorem paginate_cursor_monotone (u : ℚ) (hu : 0 < u) :
    (∀ (y : ℚ) (b : Block), 0 ≤ b.height → 0 ≤ b.marginTop → 0 ≤ b.marginBottom →
        y ≤ (paginateStep u y b).2 ∧ y + b.height ≤ (paginateStep u y b).2) ∧
    (∀ (y0 : ℚ) (bs : List Block),
        (∀ b ∈ bs, 0 ≤ b.height ∧ 0 ≤ b.marginTop ∧ 0 ≤ b.marginBottom) →
        y0 + (bs.map Block.height).sum ≤ (paginate u y0 bs).2) := by
  have hstep : ∀ (y : ℚ) (b : Block), 0 ≤ b.height → 0 ≤ b.marginTop →
      0 ≤ b.marginBottom →
      y ≤ (paginateStep u y b).2 ∧ y + b.height ≤ (paginateStep u y b).2 := by
    intro y b h1 h2 h3
    have ht : b.height ≤ totalItemHeight b := by unfold totalItemHeight; linarith
    by_cases hc : ⌊y / u⌋ ≠ ⌊(y + totalItemHeight b) / u⌋
    · have hrem : 0 < ((⌊y / u⌋ : ℚ) + 1) * u - y := by
        have hlt : y / u < (⌊y / u⌋ : ℚ) + 1 := Int.lt_floor_add_one (y / u)
        have := (div_lt_iff₀ hu).mp hlt
        linarith
      simp only [paginateStep]
      rw [if_pos hc]
      constructor <;> dsimp only <;> linarith
    · simp only [paginateStep]
      rw [if_neg hc]
      constructor <;> dsimp only <;> linarith
  refine ⟨hstep, ?_⟩
  intro y0 bs
  induction bs generalizing y0 with
  | nil => intro _; simp [paginate]
  | cons b bs ih =>
    intro hb
    have hbnn := hb b (List.mem_cons_self b bs)
    have h1 := hstep y0 b hbnn.1 hbnn.2.1 hbnn.2.2
    have h2 := ih (paginateStep u y0 b).2
      (fun b' hb' => hb b' (List.mem_cons_of_mem b hb'))
    simp only [paginate, List.map_cons, List.sum_cons]
    linarith

/-- Witness for paginate_cursor_monotone: at cursor 0 a 300-tall block
advances the cursor to at least 300, and the worked scenario's run ends at
or above the 1400 = 300 + 900 + 200 total height. -/
theorem paginate_cursor_monotone_witness :
    ((0 : ℚ) ≤ (paginateStep 1063 0 ⟨300, 0, 0⟩).2 ∧
      (0 : ℚ) + 300 ≤ (paginateStep 1063 0 ⟨300, 0, 0⟩).2) ∧
    (0 : ℚ) + (([⟨300, 0, 0⟩, ⟨900, 0, 0⟩, ⟨200, 0, 0⟩] : List Block).map
        Block.height).sum
      ≤ (paginate 1063 0 [⟨300, 0, 0⟩, ⟨900, 0, 0⟩, ⟨200, 0, 0⟩]).2 := by
  obtain ⟨hstep, hrun⟩ := paginate_cursor_monotone 1063 (by norm_num)
  exact ⟨hstep 0 ⟨300, 0, 0⟩ (by norm_num) (by norm_num) (by norm_num),
    hrun 0 _ (by intro b hb; fin_cases hb <;> norm_num)⟩

/-! ## Slicer, src/App.tsx lines 331-358 (duplicated nearly verbatim in
src/components/ConsolidatedStudentView.tsx lines 361-386) -/

/-- Constant pdfWidth (src/App.tsx line 339). -/
def pdfWidth : ℚ := 210

/-- Constant pdfHeight (src/App.tsx line 340). -/
def pdfHeight : ℚ := 297

/-- imgHeight = canvas.height * pdfWidth / canvas.width: the captured
bitmap's height after scaling to the page width (src/App.tsx line 343). -/
def imgHeight (canvasWidth canvasHeight : ℚ) : ℚ :=
  canvasHeight * pdfWidth / canvasWidth

/-- The while loop of src/App.tsx lines 353-358: while heightLeft > 0, a
new page is added with the full image drawn at y offset
-(imgHeight - heightLeft), and heightLeft is decremented by pdfHeight.
Returns the offsets of the pages the loop adds, in order. -/
def slicerLoop (H heightLeft : ℚ) : List ℚ :=
  if h : 0 < heightLeft then
    (-(H - heightLeft)) :: slicerLoop H (heightLeft - pdfHeight)
  else []
termination_by (⌈heightLeft / pdfHeight⌉).toNat
decreasing_by
  have hp : (0 : ℚ) < pdfHeight := by norm_num [pdfHeight]
  have h1 : (heightLeft - pdfHeight) / pdfHeight = heightLeft / pdfHeight - 1 := by
    rw [sub_div, div_self (ne_of_gt hp)]
  have h2 : ⌈(heightLeft - pdfHeight) / pdfHeight⌉ = ⌈heightLeft / pdfHeight⌉ - 1 := by
    rw [h1, Int.ceil_sub_one]
  have h3 : 0 < ⌈heightLeft / pdfHeight⌉ := Int.ceil_pos.mpr (div_pos h hp)
  simp only [h2]
  omega

/-- The full Slicer: the first page is added unconditionally with the image
at offset 0 (src/App.tsx lines 348-350), then the loop runs starting from
heightLeft = imgHeight - pdfHeight.  Returns the y offset given to
addImage on each output page, in page order. -/
def slicePages (H : ℚ) : List ℚ :=
  0 :: slicerLoop H (H - pdfHeight)

/-- Closed form of the slicer loop: started at heightLeft = H - pdfHeight·j
(j ≥ 1), it emits the offsets -(pdfHeight·k) for k = j, ..., ⌈H/pdfHeight⌉ - 1. -/
theorem slicerLoop_eq (H : ℚ) :
    ∀ (m j : ℕ), 1 ≤ j → (⌈H / pdfHeight⌉ - j).toNat = m →
      slicerLoop H (H - pdfHeight * j) =
        (List.range' j m).map (fun (k : ℕ) => -(pdfHeight * (k : ℚ))) := by
  have hp : (0 : ℚ) < pdfHeight := by norm_num [pdfHeight]
  intro m
  induction m with
  | zero =>
    intro j hj hm
    have hle : ⌈H / pdfHeight⌉ ≤ (j : ℤ) := by omega
    have h1 : H / pdfHeight ≤ (j : ℚ) :=
      le_trans (Int.le_ceil _) (by exact_mod_cast hle)
    have h2 : H ≤ pdfHeight * j := by
      have := (div_le_iff₀ hp).mp h1
      linarith
    rw [slicerLoop]
    rw [dif_neg (by linarith : ¬ (0 : ℚ) < H - pdfHeight * j)]
    simp
  | succ m ih =>
    intro j hj hm
    have hjlt : (j : ℤ) < ⌈H / pdfHeight⌉ := by omega
    have h1 : ((j : ℤ) : ℚ) < H / pdfHeight := Int.lt_ceil.mp hjlt
    have h2 : pdfHeight * j < H := by
      have := (lt_div_iff₀ hp).mp h1
      push_cast at this
      linarith
    rw [slicerLoop]
    rw [dif_pos (by linarith : (0 : ℚ) < H - pdfHeight * j)]
    rw [show H - pdfHeight * (j : ℚ) - pdfHeight = H - pdfHeight * ((j + 1 : ℕ) : ℚ)
      by push_cast; ring]
    rw [ih (j + 1) (by omega) (by omega)]
    rw [show -(H - (H - pdfHeight * (j : ℚ))) = -(pdfHeight * (j : ℚ)) by ring]
    rw [List.range'_succ, List.map_cons]

/-- Claim C4: for a positive scaled image height H (and the source's page
height pdfHeight = 297), the Slicer produces exactly ceil(H / 297) pages,
and the page with zero-based index k draws the full image shifted upward
by exactly k * 297 units (y offset -(297 * k)). -/
theorem slicePages_spec (H : ℚ) (hH : 0 < H) :
    slicePages H =
      (List.range (⌈H / pdfHeight⌉).toNat).map (fun (k : ℕ) => -(pdfHeight * (k : ℚ))) ∧
    (slicePages H).length = (⌈H / pdfHeight⌉).toNat := by
  have hp : (0 : ℚ) < pdfHeight := by norm_num [pdfHeight]
  have hn : 1 ≤ ⌈H / pdfHeight⌉ := Int.ceil_pos.mpr (div_pos hH hp)
  have e1 : slicerLoop H (H - pdfHeight) =
      (List.range' 1 ((⌈H / pdfHeight⌉ - 1).toNat)).map
        (fun (k : ℕ) => -(pdfHeight * (k : ℚ))) := by
    have h := slicerLoop_eq H ((⌈H / pdfHeight⌉ - 1).toNat) 1 le_rfl rfl
    rw [show H - pdfHeight * ((1 : ℕ) : ℚ) = H - pdfHeight by norm_num] at h
    exact h
  have e2 : slicePages H =
      (List.range (⌈H / pdfHeight⌉).toNat).map (fun (k : ℕ) => -(pdfHeight * (k : ℚ))) := by
    rw [slicePages, e1,
      show (⌈H / pdfHeight⌉).toNat = (⌈H / pdfHeight⌉ - 1).toNat + 1 by omega,
      List.range_eq_range', List.range'_succ, List.map_cons]
    norm_num
  exact ⟨e2, by rw [e2]; simp⟩

/-- Witness for slicePages_spec: a bitmap of scaled height 1500 produces
exactly ceil(1500 / 297) = 6 pages. -/
theorem slicePages_spec_witness : (slicePages 1500).length = 6 := by
  have h := (slicePages_spec 1500 (by norm_num)).2
  have hc : ⌈(1500 : ℚ) / pdfHeight⌉ = 6 :=
    ceil_eval (by norm_num [pdfHeight]) (by norm_num [pdfHeight])
  rw [h, hc]
  rfl

/-- Claim C9: the Slicer always outputs at least one page, whatever the
scaled image height (including zero or negative remaining height): the
first page is emitted unconditionally before the remaining-height loop. -/
theorem slicePages_never_empty (H : ℚ) : 1 ≤ (slicePages H).length := by
  simp [slicePages]

/-! ## Filename sanitization, src/App.tsx line 360 and
src/components/ConsolidatedStudentView.tsx line 388

Characters are modelled by their Unicode code points (naturals):
underscore is 95, the ASCII ranges are 97-122 (a-z), 65-90 (A-Z) and
48-57 (0-9). -/

/-- A character matched by the case-insensitive class [a-z0-9] of the
regex /[^a-z0-9]/gi: an ASCII letter (either case) or an ASCII digit. -/
def isAsciiAlnum (c : ℕ) : Bool :=
  decide ((97 ≤ c ∧ c ≤ 122) ∨ (65 ≤ c ∧ c ≤ 90) ∨ (48 ≤ c ∧ c ≤ 57))

/-- The toLowerCase step.  After the replacement step the string is pure
ASCII (letters, digits and underscores), on which JavaScript's Unicode
toLowerCase agrees with ASCII lowercasing: code points 65-90 shift by 32,
everything else is unchanged. -/
def toLowerCode (c : ℕ) : ℕ := if 65 ≤ c ∧ c ≤ 90 then c + 32 else c

/-- safeName = name.replace(/[^a-z0-9]/gi, delimiter).toLowerCase() with an
underscore as the replacement (src/App.tsx line 360): the global
single-character-class replace maps each character that is not an ASCII
letter or digit to an underscore (code point 95), then the result is
lowercased. -/
def safeName (name : List ℕ) : List ℕ :=
  (name.map (fun c => if isAsciiAlnum c then c else 95)).map toLowerCode

/-- Claim C5 (counterexample): on the spec's own example "João D'Ávila Jr."
(code points below) the derived token is "jo_o_d__vila_jr_", which
contains underscores (code point 95, not an alphanumeric character):
non-alphanumeric input characters are replaced by underscores, not
stripped. -/
theorem safeName_counterexample :
    safeName [74, 111, 227, 111, 32, 68, 39, 193, 118, 105, 108, 97, 32, 74, 114, 46]
      = [106, 111, 95, 111, 95, 100, 95, 95, 118, 105, 108, 97, 95, 106, 114, 95] ∧
    95 ∈ safeName [74, 111, 227, 111, 32, 68, 39, 193, 118, 105, 108, 97, 32, 74, 114, 46] ∧
    ¬ ((97 ≤ 95 ∧ 95 ≤ 122) ∨ (48 ≤ 95 ∧ 95 ≤ 57)) := by decide

/-- Claim C5 (amended): every character of the derived filename token is a
lowercase ASCII letter, an ASCII digit, or an underscore; every
non-alphanumeric input character is replaced by an underscore (not
stripped) and the result is lowercased. -/
theorem safeName_chars (s : List ℕ) :
    ∀ c ∈ safeName s, (97 ≤ c ∧ c ≤ 122) ∨ (48 ≤ c ∧ c ≤ 57) ∨ c = 95 := by
  intro c hc
  simp only [safeName, List.mem_map] at hc
  obtain ⟨d, ⟨e, he, rfl⟩, rfl⟩ := hc
  by_cases h : isAsciiAlnum e
  · simp only [if_pos h, isAsciiAlnum, decide_eq_true_eq] at *
    unfold toLowerCode
    split_ifs with h2 <;> omega
  · simp only [if_neg h]
    unfold toLowerCode
    split_ifs with h2 <;> omega

/-- Witness for safeName_chars: the character j (106) of the token derived
from "J " (74, 32) is a lowercase letter, digit or underscore. -/
theorem safeName_chars_witness :
    (97 ≤ 106 ∧ 106 ≤ 122) ∨ (48 ≤ 106 ∧ 106 ≤ 57) ∨ 106 = 95 :=
  safeName_chars [74, 32] 106 (by decide)

/-! ## Markdown text normalizer, src/App.tsx lines 16-22

The three chained global regex replaces are modelled as left-to-right
scans over the character list; each scan resumes after the end of a
replaced match, exactly as a global replace does, and the quantified
regexes are greedy, so a matched run is maximal. -/

/-- Helper for the termination of the greedy run scans. -/
theorem dropWhile_length_le (p : Char → Bool) (l : List Char) :
    (l.dropWhile p).length ≤ l.length := by
  induction l with
  | nil => simp [List.dropWhile]
  | cons a l ih =>
    rw [List.dropWhile]
    cases p a <;> simp <;> omega

/-- Helper: the head of dropWhile p does not satisfy p. -/
theorem head_dropWhile_false (p : Char → Bool) (l : List Char) (c : Char)
    (h : (l.dropWhile p).head? = some c) : p c = false := by
  induction l with
  | nil => simp [List.dropWhile] at h
  | cons a l ih =>
    rw [List.dropWhile] at h
    cases hpa : p a with
    | true => rw [hpa] at h; exact ih h
    | false => rw [hpa] at h; simp at h; subst h; exact hpa

/-- First replace of normalizeMarkdown (src/App.tsx line 19):
text.replace(/([^\n])\n([^\n])/g, joining the two captured characters
with a space).  A single newline between two non-newline characters
becomes a space; when no match starts at the current character the scan
advances by one. -/
def joinSingleNewlines : List Char → List Char
  | a :: '\n' :: b :: rest2 =>
    if a ≠ '\n' ∧ b ≠ '\n' then a :: ' ' :: b :: joinSingleNewlines rest2
    else a :: joinSingleNewlines ('\n' :: b :: rest2)
  | a :: rest => a :: joinSingleNewlines rest
  | [] => []
termination_by l => l.length
decreasing_by all_goals simp <;> omega

/-- Second replace (src/App.tsx line 20): text.replace(/\n{3,}/g, two
newlines).  Each maximal run of three or more newlines collapses to
exactly two. -/
def collapseNewlineRuns : List Char → List Char
  | '\n' :: '\n' :: '\n' :: rest =>
    '\n' :: '\n' :: collapseNewlineRuns (rest.dropWhile (· == '\n'))
  | a :: rest => a :: collapseNewlineRuns rest
  | [] => []
termination_by l => l.length
decreasing_by
  · have := dropWhile_length_le (· == '\n') rest
    simp only [List.length_cons]
    omega
  · simp

/-- Third replace (src/App.tsx line 21): text.replace(/  +/g, one space).
Each maximal run of two or more spaces collapses to a single space. -/
def collapseSpaceRuns : List Char → List Char
  | ' ' :: ' ' :: rest => ' ' :: collapseSpaceRuns (rest.dropWhile (· == ' '))
  | a :: rest => a :: collapseSpaceRuns rest
  | [] => []
termination_by l => l.length
decreasing_by
  · have := dropWhile_length_le (· == ' ') rest
    simp only [List.length_cons]
    omega
  · simp

/-- normalizeMarkdown (src/App.tsx lines 16-22): the falsy-empty guard
followed by the three chained replaces. -/
def normalizeMarkdown (text : List Char) : List Char :=
  if text = [] then []
  else collapseSpaceRuns (collapseNewlineRuns (joinSingleNewlines text))

/-- Helper: collapseSpaceRuns preserves the first character. -/
theorem collapseSpaceRuns_head (l : List Char) :
    (collapseSpaceRuns l).head? = l.head? := by
  induction l using collapseSpaceRuns.induct with
  | case1 rest ih => rw [collapseSpaceRuns.eq_1]; simp
  | case2 a rest h ih => rw [collapseSpaceRuns.eq_2 a rest h]; simp
  | case3 => rw [collapseSpaceRuns.eq_3]

/-- Helper: collapseNewlineRuns preserves the first character. -/
theorem collapseNewlineRuns_head (l : List Char) :
    (collapseNewlineRuns l).head? = l.head? := by
  induction l using collapseNewlineRuns.induct with
  | case1 rest ih => rw [collapseNewlineRuns.eq_1]; simp
  | case2 a rest h ih => rw [collapseNewlineRuns.eq_2 a rest h]; simp
  | case3 => rw [collapseNewlineRuns.eq_3]

/-- Helper: a one-element prefix determines the head. -/
theorem singleton_prefix_head {c : Char} {l : List Char} (h : [c] <+: l) :
    l.head? = some c := by
  obtain ⟨t, rfl⟩ := h
  rfl

/-- Helper: a list whose head is some c is c consed on some tail. -/
theorem head_eq_cons {c : Char} {l : List Char} (h : l.head? = some c) :
    ∃ t, l = c :: t := by
  cases l with
  | nil => simp at h
  | cons a t => simp at h; exact ⟨t, by rw [h]⟩

/-- Helper: after the space-collapsing replace no two adjacent spaces
remain. -/
theorem no_double_space_collapseSpaceRuns (l : List Char) :
    ¬ ([' ', ' '] <:+: collapseSpaceRuns l) := by
  induction l using collapseSpaceRuns.induct with
  | case1 rest ih =>
    rw [collapseSpaceRuns.eq_1, List.infix_cons_iff]
    rintro (hp | hi)
    · rw [List.cons_prefix_cons] at hp
      have hh := singleton_prefix_head hp.2
      rw [collapseSpaceRuns_head] at hh
      have := head_dropWhile_false (· == ' ') rest ' ' hh
      simp at this
    · exact ih hi
  | case2 a rest h ih =>
    rw [collapseSpaceRuns.eq_2 a rest h, List.infix_cons_iff]
    rintro (hp | hi)
    · rw [List.cons_prefix_cons] at hp
      obtain ⟨ha, hp2⟩ := hp
      have hh := singleton_prefix_head hp2
      rw [collapseSpaceRuns_head] at hh
      obtain ⟨t, rfl⟩ := head_eq_cons hh
      exact h t ha.symm rfl
    · exact ih hi
  | case3 => simp [collapseSpaceRuns]

/-- Helper: after the newline-collapsing replace no three adjacent
newlines remain. -/
theorem no_triple_newline_collapseNewlineRuns (l : List Char) :
    ¬ (['\n', '\n', '\n'] <:+: collapseNewlineRuns l) := by
  induction l using collapseNewlineRuns.induct with
  | case1 rest ih =>
    rw [collapseNewlineRuns.eq_1, List.infix_cons_iff, List.infix_cons_iff]
    rintro (hp | hp | hi)
    · rw [List.cons_prefix_cons, List.cons_prefix_cons] at hp
      have hh := singleton_prefix_head hp.2.2
      rw [collapseNewlineRuns_head] at hh
      have := head_dropWhile_false (· == '\n') rest '\n' hh
      simp at this
    · rw [List.cons_prefix_cons] at hp
      have hh : (collapseNewlineRuns (rest.dropWhile (· == '\n'))).head? = some '\n' := by
        obtain ⟨t, ht⟩ := hp.2
        rw [← ht]; rfl
      rw [collapseNewlineRuns_head] at hh
      have := head_dropWhile_false (· == '\n') rest '\n' hh
      simp at this
    · exact ih hi
  | case2 a rest h ih =>
    rw [collapseNewlineRuns.eq_2 a rest h, List.infix_cons_iff]
    rintro (hp | hi)
    · rw [List.cons_prefix_cons] at hp
      obtain ⟨ha, hp2⟩ := hp
      have hh : (collapseNewlineRuns rest).head? = some '\n' := by
        obtain ⟨t, ht⟩ := hp2
        rw [← ht]; rfl
      rw [collapseNewlineRuns_head] at hh
      obtain ⟨r2, rfl⟩ := head_eq_cons hh
      have hr2 : ∀ s, r2 = '\n' :: s → False := by
        intro s hs
        exact h s ha.symm (by rw [hs])
      have e2 : collapseNewlineRuns ('\n' :: r2) = '\n' :: collapseNewlineRuns r2 := by
        apply collapseNewlineRuns.eq_2
        intro s _ hs
        exact hr2 ('\n' :: s) hs
      rw [e2, List.cons_prefix_cons] at hp2
      have hh2 := singleton_prefix_head hp2.2
      rw [collapseNewlineRuns_head] at hh2
      obtain ⟨r3, rfl⟩ := head_eq_cons hh2
      exact hr2 r3 rfl
    · exact ih hi
  | case3 => simp [collapseNewlineRuns]

/-- Helper: a non-space head passes through collapseSpaceRuns. -/
theorem collapseSpaceRuns_cons_ne (a : Char) (t : List Char) (h : a ≠ ' ') :
    collapseSpaceRuns (a :: t) = a :: collapseSpaceRuns t := by
  apply collapseSpaceRuns.eq_2
  intro s ha _
  exact h ha

/-- Helper: collapseSpaceRuns never creates a triple newline: it always
leaves one space where it collapses a run, so newline runs cannot merge. -/
theorem preserve_no_triple (l : List Char)
    (hl : ¬ (['\n', '\n', '\n'] <:+: l)) :
    ¬ (['\n', '\n', '\n'] <:+: collapseSpaceRuns l) := by
  induction l using collapseSpaceRuns.induct with
  | case1 rest ih =>
    intro hcon
    rw [collapseSpaceRuns.eq_1, List.infix_cons_iff] at hcon
    rcases hcon with hp | hi
    · rw [List.cons_prefix_cons] at hp
      exact absurd hp.1 (by decide)
    · refine ih ?_ hi
      intro hd
      apply hl
      have h1 : ['\n', '\n', '\n'] <:+: rest :=
        hd.trans (List.dropWhile_suffix _).isInfix
      exact List.infix_cons_iff.mpr (Or.inr (List.infix_cons_iff.mpr (Or.inr h1)))
  | case2 a rest h ih =>
    intro hcon
    rw [collapseSpaceRuns.eq_2 a rest h, List.infix_cons_iff] at hcon
    rcases hcon with hp | hi
    · rw [List.cons_prefix_cons] at hp
      obtain ⟨ha, hp2⟩ := hp
      have hh : (collapseSpaceRuns rest).head? = some '\n' := by
        obtain ⟨t, ht⟩ := hp2
        rw [← ht]; rfl
      rw [collapseSpaceRuns_head] at hh
      obtain ⟨r2, rfl⟩ := head_eq_cons hh
      rw [collapseSpaceRuns_cons_ne '\n' r2 (by decide),
        List.cons_prefix_cons] at hp2
      have hh2 := singleton_prefix_head hp2.2
      rw [collapseSpaceRuns_head] at hh2
      obtain ⟨r3, rfl⟩ := head_eq_cons hh2
      subst ha
      exact hl (List.infix_cons_iff.mpr (Or.inl ⟨r3, rfl⟩))
    · exact ih (fun hd => hl (List.infix_cons_iff.mpr (Or.inr hd))) hi
  | case3 =>
    rw [collapseSpaceRuns.eq_3]
    exact hl

/-- Claim C10 (counterexample): normalizeMarkdown is not idempotent.  On
"a\nb\nc" one pass yields "a b\nc" (the scan resumes after the first
replaced match, skipping the character before the second newline), which
still has a single newline between two non-newline characters, and a
second pass yields "a b c". -/
theorem normalizeMarkdown_counterexample :
    normalizeMarkdown ['a', '\n', 'b', '\n', 'c'] = ['a', ' ', 'b', '\n', 'c'] ∧
    normalizeMarkdown (normalizeMarkdown ['a', '\n', 'b', '\n', 'c'])
        = ['a', ' ', 'b', ' ', 'c'] ∧
    normalizeMarkdown (normalizeMarkdown ['a', '\n', 'b', '\n', 'c'])
        ≠ normalizeMarkdown ['a', '\n', 'b', '\n', 'c'] := by
  have e1 : normalizeMarkdown ['a', '\n', 'b', '\n', 'c'] = ['a', ' ', 'b', '\n', 'c'] := by
    simp [normalizeMarkdown, joinSingleNewlines, collapseNewlineRuns,
      collapseSpaceRuns, List.dropWhile]
  have e2 : normalizeMarkdown ['a', ' ', 'b', '\n', 'c'] = ['a', ' ', 'b', ' ', 'c'] := by
    simp [normalizeMarkdown, joinSingleNewlines, collapseNewlineRuns,
      collapseSpaceRuns, List.dropWhile]
  refine ⟨e1, by rw [e1, e2], by rw [e1, e2]; decide⟩

/-- Claim C10 (amended): after one normalizeMarkdown pass no run of two or
more spaces and no run of three or more newlines remains; but a single
newline may survive between two non-newline characters (the global scan
resumes after each replaced match), so a second pass can still change the
string and the normalizer is not idempotent. -/
theorem normalizeMarkdown_no_runs (s : List Char) :
    ¬ ([' ', ' '] <:+: normalizeMarkdown s) ∧
    ¬ (['\n', '\n', '\n'] <:+: normalizeMarkdown s) := by
  unfold normalizeMarkdown
  split
  · constructor <;> simp
  · exact ⟨no_double_space_collapseSpaceRuns _,
      preserve_no_triple _ (no_triple_newline_collapseNewlineRuns _)⟩

/-! ## Export handlers: busy flag and staging container lifecycle

handleDownloadReportPDF (src/App.tsx lines 205-369) and handleDownloadPDF
(src/components/ConsolidatedStudentView.tsx lines 276-397).  The two state
bits the error-handling claims are about are tracked explicitly; every
operation of the handlers that cannot throw and does not touch them is
elided.  Which awaited stage throws is an input. -/

/-- The run conditions of one export: whether reportData is non-null
(src/App.tsx line 206), whether the printable element is found (line 211,
and ConsolidatedStudentView line 279), whether any step between appending
the staging container to the body and the post-capture removeChild throws
(the style passes and html2canvas, src/App.tsx lines 224-327), and whether
the PDF slicing or save step after removal throws (lines 332-361). -/
structure PdfRunConditions where
  hasReportData : Bool
  hasElement : Bool
  captureThrows : Bool
  saveThrows : Bool
deriving DecidableEq, Repr

/-- The tracked document state: the isGeneratingPdf busy flag that
disables the export trigger, and whether the off-screen staging container
is currently attached to document.body. -/
structure DomState where
  isGeneratingPdf : Bool
  containerAttached : Bool
deriving DecidableEq, Repr

/-- handleDownloadReportPDF (src/App.tsx lines 205-369).  Control flow:
the null-reportData early return precedes setIsGeneratingPdf(true); inside
the try, a missing element returns early (finally still runs); the
container is appended at line 221; removeChild happens at line 329, after
capture and inside the try, so a throw between attach and removal is
caught at line 363 with the container still attached; a throw during
slicing/save (after removal) changes neither tracked bit; the finally at
line 366 clears the busy flag on every path that set it. -/
def handleDownloadReportPDF (c : PdfRunConditions) (s : DomState) : DomState :=
  if !c.hasReportData then s
  else
    let s1 : DomState := { s with isGeneratingPdf := true }
    let s2 : DomState :=
      if !c.hasElement then s1
      else
        let sA : DomState := { s1 with containerAttached := true }
        if c.captureThrows then sA
        else { sA with containerAttached := false }
    { s2 with isGeneratingPdf := false }

/-- handleDownloadPDF (src/components/ConsolidatedStudentView.tsx lines
276-397).  setIsGeneratingPdf(true) runs first; a missing element resets
the flag explicitly and returns (lines 279-283); the container is appended
at line 294 inside the try and removed at line 361 after capture, so a
throw in between leaves it attached; the finally at line 395 clears the
busy flag. -/
def handleDownloadPDF (c : PdfRunConditions) (s : DomState) : DomState :=
  let s1 : DomState := { s with isGeneratingPdf := true }
  if !c.hasElement then { s1 with isGeneratingPdf := false }
  else
    let s2 : DomState :=
      let sA : DomState := { s1 with containerAttached := true }
      if c.captureThrows then sA
      else { sA with containerAttached := false }
    { s2 with isGeneratingPdf := false }

/-- Claim C2 (counterexample): when the capture stage throws (after the
staging container was appended, before the post-capture removeChild), both
export handlers return with the container still attached to the document
body: removal is not on this exit path. -/
theorem container_leak_counterexample :
    (handleDownloadReportPDF ⟨true, true, true, false⟩ ⟨false, false⟩).containerAttached = true ∧
    (handleDownloadPDF ⟨true, true, true, false⟩ ⟨false, false⟩).containerAttached = true :=
  ⟨rfl, rfl⟩

/-- Claim C2 (amended): the staging container is removed before either
export handler returns on every path on which no exception is raised
between appending the container and the post-capture removal; when such an
exception is raised, the container is left attached (removal is inside the
try after capture, not in a finally block). -/
theorem container_removed_when_capture_ok (c : PdfRunConditions) (s : DomState)
    (hs : s.containerAttached = false) (hc : c.captureThrows = false) :
    (handleDownloadReportPDF c s).containerAttached = false ∧
    (handleDownloadPDF c s).containerAttached = false := by
  obtain ⟨rd, el, cap, sv⟩ := c
  obtain ⟨g, att⟩ := s
  simp only at hs hc
  subst hs
  subst hc
  cases rd <;> cases el <;> cases sv <;> cases g <;> exact ⟨rfl, rfl⟩

/-- Witness for container_removed_when_capture_ok: a run in which capture
succeeds and the save step throws still ends with the container
detached. -/
theorem container_removed_witness :
    (handleDownloadReportPDF ⟨true, true, false, true⟩ ⟨false, false⟩).containerAttached = false ∧
    (handleDownloadPDF ⟨true, true, false, true⟩ ⟨false, false⟩).containerAttached = false :=
  container_removed_when_capture_ok ⟨true, true, false, true⟩ ⟨false, false⟩ rfl rfl

/-- Claim C8: whatever combination of stages throws, both export handlers
finish with the busy/generating flag false (given it was false when the
trigger was enabled): the flag is reset in a finally block, or explicitly
before the early return, on every exit path. -/
theorem generating_flag_reset (c : PdfRunConditions) (s : DomState)
    (hs : s.isGeneratingPdf = false) :
    (handleDownloadReportPDF c s).isGeneratingPdf = false ∧
    (handleDownloadPDF c s).isGeneratingPdf = false := by
  obtain ⟨rd, el, cap, sv⟩ := c
  obtain ⟨g, att⟩ := s
  simp only at hs
  subst hs
  cases rd <;> cases el <;> cases cap <;> cases sv <;> cases att <;> exact ⟨rfl, rfl⟩

/-- Witness for generating_flag_reset: a failing capture still re-enables
the trigger in both handlers. -/
theorem generating_flag_reset_witness :
    (handleDownloadReportPDF ⟨true, true, true, false⟩ ⟨false, false⟩).isGeneratingPdf = false ∧
    (handleDownloadPDF ⟨true, true, true, false⟩ ⟨false, false⟩).isGeneratingPdf = false :=
  generating_flag_reset ⟨true, true, true, false⟩ ⟨false, false⟩ rfl

end SondagemIA
